import Mathlib

/-!
Verification of the GrooveBot audio-reactive robot against its specification.

The development embeds the two core subsystems of the repository:
the audio feature extractor (`AudioService.getFeatures` in the audio service
module) and the per-joint spring-damper pose solver (`solveJoint` and the
`useFrame` tick of the `Robot` component), together with the sequencer save
operation (`saveSequence` in `App.tsx`).

Modelling conventions: byte buffers (`Uint8Array`) become `List ℕ` with
entries at most 255; exact JavaScript float arithmetic is modelled by exact
arithmetic over `ℚ` (and `ℝ` where the source uses `Math.sqrt`, `Math.log2`,
`Math.sin`, `Math.cos`); `performance.now()` timestamps and `Math.random()`
draws are explicit inputs.
-/

set_option maxRecDepth 2048

namespace GrooveBot

/-! ### Beat detector (AudioService beat-detection state and step) -/

/-- Beat-detector state: `lastBeatTime` and `beatThreshold` fields of
`AudioService`. -/
structure BeatState where
  lastBeatTime : ℚ
  threshold : ℚ
  deriving DecidableEq, Repr

/-- Threshold decay applied on a non-beat tick:
`beatThreshold *= 0.98; if (beatThreshold < 0.35) beatThreshold = 0.35`. -/
def decayThreshold (t : ℚ) : ℚ :=
  if t * (98 / 100) < 35 / 100 then 35 / 100 else t * (98 / 100)

/-- One beat-detection step of `AudioService.getFeatures` (section 4 of the
function): fires iff `bass > beatThreshold && now - lastBeatTime >
beatMinInterval (300)`; on a beat, `lastBeatTime` is set to `now` and the
threshold spikes to `1.0`; otherwise the threshold decays. -/
def beatStep (s : BeatState) (bass now : ℚ) : Bool × BeatState :=
  if s.threshold < bass ∧ 300 < now - s.lastBeatTime then
    (true, ⟨now, 1⟩)
  else
    (false, ⟨s.lastBeatTime, decayThreshold s.threshold⟩)

/-- Timestamps of the calls that report `isBeat = true`, over a list of
`(bass, now)` inputs processed in order. -/
def beatTimes (s : BeatState) : List (ℚ × ℚ) → List ℚ
  | [] => []
  | (b, now) :: rest =>
    let r := beatStep s b now
    if r.1 then now :: beatTimes r.2 rest else beatTimes r.2 rest

/-! ### Feature extractor (AudioService.getFeatures) -/

/-- Extractor state: `previousSpectrum` (normalized magnitudes used by the
spectral-flux computation) plus the beat-detector fields. -/
structure ExtractorState where
  prevSpectrum : List ℚ
  beat : BeatState

/-- Initial extractor state after `setupAnalyser`: `previousSpectrum` is a
fresh all-zero `Float32Array(1024)`, `lastBeatTime = 0`,
`beatThreshold = 0.6`. -/
def initExtractorState : ExtractorState :=
  ⟨List.replicate 1024 0, ⟨0, 3 / 5⟩⟩

/-- The inner helper `getAvg(start, end)`: arithmetic mean of the byte
magnitudes on the index range `[start, end)`. -/
def bandAvg (d : List ℕ) (a b : ℕ) : ℚ :=
  (∑ i ∈ Finset.Ico a b, (d.getD i 0 : ℚ)) / ((b - a : ℕ) : ℚ)

/-- Bass band: `getAvg(1, 12) / 255`. -/
def bassOf (d : List ℕ) : ℚ := bandAvg d 1 12 / 255

/-- Mid band: `getAvg(12, 185) / 255`. -/
def midOf (d : List ℕ) : ℚ := bandAvg d 12 185 / 255

/-- Treble band: `getAvg(185, 1024) / 255`. -/
def trebleOf (d : List ℕ) : ℚ := bandAvg d 185 1024 / 255

/-- Mean square of the zero-centered time-domain samples
`(timeArray[i] - 128) / 128`, divided by the buffer length; the source takes
`Math.sqrt` of this value to obtain `rms`. -/
def rmsSqOf (t : List ℕ) : ℚ :=
  (∑ i ∈ Finset.range t.length, (((t.getD i 0 : ℚ) - 128) / 128) ^ 2) / t.length

/-- Spectral centroid: `(Σ i·mag[i] / Σ mag[i]) / bufferLength`, `0` when the
denominator is `0`. -/
def centroidOf (d : List ℕ) : ℚ :=
  let den := ∑ i ∈ Finset.range d.length, (d.getD i 0 : ℚ) / 255
  if den = 0 then 0
  else ((∑ i ∈ Finset.range d.length, (i : ℚ) * ((d.getD i 0 : ℚ) / 255)) / den) / d.length

/-- Spectral flux: positive-only per-bin increase over the previous normalized
spectrum, summed, divided by 100 and capped at 1 (`Math.min(1, fluxSum/100)`). -/
def fluxOf (d : List ℕ) (prev : List ℚ) : ℚ :=
  min 1 ((∑ i ∈ Finset.range d.length,
    (if 0 < (d.getD i 0 : ℚ) / 255 - prev.getD i 0
     then (d.getD i 0 : ℚ) / 255 - prev.getD i 0 else 0)) / 100)

/-- The maximum-magnitude scan of the pitch estimator: starting from
`maxVal = 0, maxIndex = 0`, visit indices `1, 2, …` and record the first
strict maximum, exactly as the `for` loop in section 5 of `getFeatures`. -/
def pitchScanAux (mv mi i : ℕ) : List ℕ → ℕ × ℕ
  | [] => (mv, mi)
  | v :: rest =>
    if mv < v then pitchScanAux v i (i + 1) rest else pitchScanAux mv mi (i + 1) rest

/-- Dominant-bin pitch estimate: `maxVal > 100 ? (maxIndex / bufferLength) *
nyquist : 0`, where the scan skips the DC bin (index 0). -/
def pitchValOf (d : List ℕ) (nyq : ℚ) : ℚ :=
  let scan := pitchScanAux 0 0 1 (d.drop 1)
  if 100 < scan.1 then (scan.2 : ℚ) / (d.length : ℚ) * nyq else 0

/-- JavaScript `Math.round`: round half up, i.e. `⌊x + 1/2⌋`. -/
noncomputable def jsRound (x : ℝ) : ℤ := ⌊x + 1 / 2⌋

/-- Fractional MIDI number of a frequency: `69 + 12 * Math.log2(freq / 440)`. -/
noncomputable def midiOfFreq (f : ℚ) : ℝ := 69 + 12 * Real.logb 2 ((f : ℝ) / 440)

/-- Pitch class of a frequency: `semitone = Math.round(midi) % 12;
idx = (semitone + 12) % 12` with JavaScript truncating remainder. -/
noncomputable def pitchClass (f : ℚ) : ℤ :=
  Int.tmod (Int.tmod (jsRound (midiOfFreq f)) 12 + 12) 12

/-- Chroma accumulation loop: starting at list index `i`, add `mag[i] / 255`
into the pitch-class slot of the frequency `(i / n) * nyquist` of every bin
with index at least 1 whose magnitude passes the noise gate (`≥ 50`) and whose
frequency is positive. -/
noncomputable def chromaAccum (n : ℕ) (nyq : ℚ) : ℕ → List ℕ → Fin 12 → ℚ
  | _, [] => fun _ => 0
  | i, v :: rest => fun c =>
    if 1 ≤ i ∧ 50 ≤ v ∧ 0 < (i : ℚ) / (n : ℚ) * nyq then
      (if pitchClass ((i : ℚ) / (n : ℚ) * nyq) = (c : ℤ) then (v : ℚ) / 255 else 0) +
        chromaAccum n nyq (i + 1) rest c
    else chromaAccum n nyq (i + 1) rest c

/-- Unnormalized chroma vector of a magnitude spectrum. -/
noncomputable def chromaRaw (d : List ℕ) (nyq : ℚ) : Fin 12 → ℚ :=
  chromaAccum d.length nyq 0 d

/-- The normalizer `Math.max(...chroma, 0.001)`. -/
def chromaMax (raw : Fin 12 → ℚ) : ℚ :=
  (List.ofFn raw).foldr max (1 / 1000)

/-- Chroma field of the returned frame: all-zero unless `pitch > 0`, in which
case every slot is divided by the maximum slot value (floored at `0.001`). -/
noncomputable def chromaOf (d : List ℕ) (nyq : ℚ) : Fin 12 → ℚ :=
  if 0 < pitchValOf d nyq then
    fun c => chromaRaw d nyq c / chromaMax (chromaRaw d nyq)
  else fun _ => 0

/-- The `AudioFeatures` record produced once per tick (raw visualization
copies of the input arrays omitted as presentation-only). -/
structure FeatureFrame where
  bass : ℚ
  mid : ℚ
  treble : ℚ
  energy : ℚ
  rms : ℝ
  spectralCentroid : ℚ
  spectralFlux : ℚ
  pitch : ℚ
  isBeat : Bool
  chroma : Fin 12 → ℚ

/-- One call of `AudioService.getFeatures` on the freshly read byte buffers
`d` (frequency data) and `t` (time-domain data), at timestamp `now`
(`performance.now()`), with the Nyquist frequency `sampleRate / 2`. Returns
the feature frame and the updated extractor state (`previousSpectrum`
overwritten with the current normalized spectrum, beat state advanced). -/
noncomputable def getFeatures (d t : List ℕ) (st : ExtractorState) (now nyq : ℚ) :
    FeatureFrame × ExtractorState :=
  let bass := bassOf d
  let mid := midOf d
  let treble := trebleOf d
  let r := beatStep st.beat bass now
  (⟨bass, mid, treble, (bass + mid + treble) / 3,
    Real.sqrt (rmsSqOf t), centroidOf d, fluxOf d st.prevSpectrum,
    pitchValOf d nyq, r.1, chromaOf d nyq⟩,
   ⟨d.map (fun x : ℕ => (x : ℚ) / 255), r.2⟩)

/-- A run of the extractor: fold `getFeatures` over a list of
`(frequency bytes, time bytes, timestamp)` inputs. -/
noncomputable def extractorRun (nyq : ℚ) : ExtractorState → List (List ℕ × List ℕ × ℚ) → ExtractorState
  | st, [] => st
  | st, (d, t, now) :: rest => extractorRun nyq (getFeatures d t st now nyq).2 rest

/-! ### Joint solver (Robot component: `JOINT_LIMITS`, `solveJoint`, `useFrame`) -/

/-- The three rotation axes of a joint. -/
inductive Axis
  | x
  | y
  | z
  deriving DecidableEq, Repr

instance : Fintype Axis :=
  ⟨⟨{Axis.x, Axis.y, Axis.z}, by decide⟩, fun a => by cases a <;> decide⟩

/-- The eleven joints of the `physicsState` map. -/
inductive Joint
  | hips
  | spine
  | head
  | lArm
  | rArm
  | lForeArm
  | rForeArm
  | lLeg
  | rLeg
  | lShin
  | rShin
  deriving DecidableEq, Repr

/-- The `JOINT_LIMITS` table (radians). `hips` is absent from the source
table, so `solveJoint` falls back to the default `[-10, 10]` on every axis. -/
def jointLimits : Joint → Axis → ℚ × ℚ
  | .hips, _ => (-10, 10)
  | .spine, .x => (-(3/10), 2/5)
  | .spine, .y => (-(4/5), 4/5)
  | .spine, .z => (-(3/10), 3/10)
  | .head, .x => (-(3/5), 3/5)
  | .head, .y => (-(6/5), 6/5)
  | .head, .z => (-(1/2), 1/2)
  | .lArm, .x => (-1, 3)
  | .lArm, .y => (-(3/2), 1)
  | .lArm, .z => (-(1/2), 5/2)
  | .rArm, .x => (-1, 3)
  | .rArm, .y => (-1, 3/2)
  | .rArm, .z => (-(5/2), 1/2)
  | .lForeArm, .x => (0, 0)
  | .lForeArm, .y => (0, 0)
  | .lForeArm, .z => (0, 13/5)
  | .rForeArm, .x => (0, 0)
  | .rForeArm, .y => (0, 0)
  | .rForeArm, .z => (-(13/5), 0)
  | .lLeg, .x => (-(6/5), 4/5)
  | .lLeg, .y => (-(1/2), 1/2)
  | .lLeg, .z => (-(1/2), 1/2)
  | .rLeg, .x => (-(6/5), 4/5)
  | .rLeg, .y => (-(1/2), 1/2)
  | .rLeg, .z => (-(1/2), 1/2)
  | .lShin, .x => (0, 2)
  | .lShin, .y => (0, 0)
  | .lShin, .z => (0, 0)
  | .rShin, .x => (0, 2)
  | .rShin, .y => (0, 0)
  | .rShin, .z => (0, 0)

/-- Per-joint physics state: rotation and velocity per axis (for `hips` the
x component is the vertical offset). -/
structure JointState where
  rot : Axis → ℝ
  vel : Axis → ℝ

/-- A vector given by its three components. -/
def axes (vx vy vz : ℝ) : Axis → ℝ
  | .x => vx
  | .y => vy
  | .z => vz

/-- Position that the semi-implicit Euler step drives an axis to before
clamping: `newPos = current + (vel + accel·dt)·dt` with
`accel = (target + noise − current)·stiffness − vel·damping`. -/
def rawPos (target cur vel dt k damp noise : ℝ) : ℝ :=
  cur + (vel + ((target + noise - cur) * k - vel * damp) * dt) * dt

/-- One axis of `solveJoint`: spring-damper integration followed by clamping
to `[mn, mx]`, zeroing the velocity on a clamp (inelastic stop). -/
noncomputable def solveAxis (mn mx target cur vel dt k damp noise : ℝ) : ℝ × ℝ :=
  let acc := (target + noise - cur) * k - vel * damp
  let nv := vel + acc * dt
  let np := cur + nv * dt
  if np < mn then (mn, 0) else if mx < np then (mx, 0) else (np, nv)

/-- The `solveJoint` helper of the `Robot` component, acting on the state of
one named joint with the limits of `JOINT_LIMITS` (default `[-10,10]`). -/
noncomputable def solveJoint (j : Joint) (target : Axis → ℝ) (dt k damp : ℝ)
    (noise : Axis → ℝ) (s : JointState) : JointState where
  rot a := (solveAxis ((jointLimits j a).1 : ℝ) ((jointLimits j a).2 : ℝ)
    (target a) (s.rot a) (s.vel a) dt k damp (noise a)).1
  vel a := (solveAxis ((jointLimits j a).1 : ℝ) ((jointLimits j a).2 : ℝ)
    (target a) (s.rot a) (s.vel a) dt k damp (noise a)).2

/-- The selectable audio feature keys (`AudioFeatureKey`). -/
inductive FeatKey
  | bass
  | mid
  | treble
  | energy
  | rms
  | spectralCentroid
  | spectralFlux
  | pitch
  deriving DecidableEq, Repr

/-- The `getFeature` helper of the `Robot` component: numeric field lookup on
the feature frame. -/
noncomputable def getFeature (f : FeatureFrame) : FeatKey → ℝ
  | .bass => (f.bass : ℝ)
  | .mid => (f.mid : ℝ)
  | .treble => (f.treble : ℝ)
  | .energy => (f.energy : ℝ)
  | .rms => f.rms
  | .spectralCentroid => (f.spectralCentroid : ℝ)
  | .spectralFlux => (f.spectralFlux : ℝ)
  | .pitch => (f.pitch : ℝ)

/-- The `MotionMapping` configuration: which feature drives which motion
channel. -/
structure MotionMapping where
  bounce : FeatKey
  spineTwist : FeatKey
  armWiggle : FeatKey
  headNod : FeatKey
  scale : FeatKey
  colorShift : FeatKey

/-- The `DEFAULT_MAPPING` constant of `types.ts`. -/
def DEFAULT_MAPPING : MotionMapping :=
  ⟨.bass, .mid, .energy, .spectralFlux, .rms, .spectralCentroid⟩

/-- A `DancePose`: target rotations for the six primary joints. -/
structure DancePose where
  head : Axis → ℝ
  spine : Axis → ℝ
  lArm : Axis → ℝ
  rArm : Axis → ℝ
  lLeg : Axis → ℝ
  rLeg : Axis → ℝ

/-- The `DEFAULT_POSE` constant of `types.ts`. -/
noncomputable def DEFAULT_POSE : DancePose :=
  ⟨axes 0 0 0, axes 0 0 0, axes 0 0 (3/10), axes 0 0 (-(3/10)), axes 0 0 0, axes 0 0 0⟩

/-- A user-saved `DanceSequence`. -/
structure DanceSequence where
  id : String
  name : String
  poses : List DancePose

/-- The four built-in procedural `defaultMoves` poses of the `Robot`
component. -/
noncomputable def defaultMoves : List DancePose :=
  [⟨axes 0 0 0, axes (1/10) 0 0, axes 0 0 (3/10), axes 0 0 (-(3/10)),
    axes 0 0 0, axes 0 0 0⟩,
   ⟨axes (-(1/5)) 0 0, axes (-(1/10)) 0 0, axes 0 0 (5/2), axes 0 0 (-(5/2)),
    axes (-(1/5)) 0 0, axes (-(1/5)) 0 0⟩,
   ⟨axes 0 0 0, axes 0 0 0, axes 0 0 (3/2), axes 0 0 (-(3/2)),
    axes 0 0 (1/5), axes 0 0 (-(1/5))⟩,
   ⟨axes (1/10) 0 0, axes (1/5) (1/10) 0, axes (1/2) (1/2) (1/2),
    axes (-(1/2)) (1/2) (-(1/2)), axes (-(2/5)) 0 0, axes (2/5) 0 0⟩]

/-- Mode selection and beat-driven cursor advance of the `useFrame` tick:
with a manual editor pose the pose is used unchanged and the cursor is
untouched; otherwise the active move list comes from the non-empty selected
sequence (else the procedural cycle), the cursor advances only on a beat
(wrapping for a sequence, by the biased random policy for the procedural
cycle), and the pose at the cursor (or `DEFAULT_POSE` when out of range) is
returned together with the new cursor. `r1`, `r2` are the two
`Math.random()` draws. -/
noncomputable def selectPose (editorPose : Option DancePose)
    (activeSequence : Option DanceSequence) (isBeat : Bool) (energy : ℝ)
    (mi : ℕ) (r1 r2 : ℝ) : DancePose × ℕ :=
  match editorPose with
  | some p => (p, mi)
  | none =>
    let activeMoves :=
      match activeSequence with
      | some sq => if 0 < sq.poses.length then sq.poses else defaultMoves
      | none => defaultMoves
    let mi2 :=
      if isBeat then
        match activeSequence with
        | none =>
          if 3/5 < energy ∧ 1/2 < r1 then 1
          else (⌊r2 * (activeMoves.length : ℝ)⌋).toNat
        | some _ => (mi + 1) % activeMoves.length
      else mi
    (activeMoves.getD mi2 DEFAULT_POSE, mi2)

/-- THREE `MathUtils.clamp(value, min, max)`. -/
noncomputable def clampR (v lo hi : ℝ) : ℝ := max lo (min hi v)

/-- THREE `MathUtils.mapLinear(x, a1, a2, b1, b2)`. -/
noncomputable def mapLinear (x a1 a2 b1 b2 : ℝ) : ℝ := b1 + (x - a1) * (b2 - b1) / (a2 - a1)

/-- The per-tick inputs of the `Robot` component (its props plus the two
random draws of the beat branch; `Math.random()` lies in `[0, 1)`). -/
structure RobotInput where
  features : FeatureFrame
  mapping : MotionMapping
  editorPose : Option DancePose
  activeSequence : Option DanceSequence
  userDamping : ℝ
  r1 : ℝ
  r2 : ℝ

/-- Persistent state of the `Robot` component: accumulated time, procedural
move cursor and the per-joint physics state. -/
structure RobotState where
  time : ℝ
  moveIndex : ℕ
  joints : Joint → JointState

/-- Body of the `useFrame` tick after the time update: given the clamped
integration timestep `dt` and the already-advanced accumulated time
`timeNow`, select the mode and target pose, compute the feature-driven
stiffness, damping and perturbation terms, and run `solveJoint` for all
eleven joints. Returns the new joint states and move cursor. -/
noncomputable def robotTick (inp : RobotInput) (dt timeNow : ℝ) (mi : ℕ)
    (joints : Joint → JointState) : (Joint → JointState) × ℕ :=
  let f := inp.features
  let isEditing := inp.editorPose.isSome
  let sel := selectPose inp.editorPose inp.activeSequence f.isBeat
    (getFeature f .energy) mi inp.r1 inp.r2
  let targetPose := sel.1
  let stiffness := if isEditing then 150 else 40 + getFeature f .energy * 20
  let damping := if isEditing then 20 else inp.userDamping
  let bounceVal := if isEditing then 0 else getFeature f inp.mapping.bounce
  let twistVal := if isEditing then 0 else getFeature f inp.mapping.spineTwist
  let nodVal := if isEditing then 0 else getFeature f inp.mapping.headNod
  let wiggleVal := if isEditing then 0 else getFeature f inp.mapping.armWiggle
  let bassVal := if isEditing then 0 else getFeature f .bass
  let pitchHz := (f.pitch : ℝ)
  let pitchTilt := if 50 < pitchHz then
      mapLinear (clampR pitchHz 100 800) 100 800 (-(3/10)) (3/10)
    else 0
  let armWiggle := Real.sin (timeNow * 12) * wiggleVal
  let kneeBend : ℝ := if isEditing then 0 else if f.isBeat then 1 else 1/10
  let lForeTarget : Axis → ℝ := if isEditing then axes 0 0 0
    else axes 0 0 (|Real.sin timeNow| * (3/2) + wiggleVal)
  let rForeTarget : Axis → ℝ := if isEditing then axes 0 0 0
    else axes 0 0 (-(|Real.sin timeNow| * (3/2) + wiggleVal))
  (fun j =>
    match j with
    | .hips => solveJoint .hips (axes (bounceVal * (1/2)) 0 0) dt
        (stiffness * (1/2)) damping
        (axes (Real.sin (timeNow * 10) * (1/10)) 0 0) (joints .hips)
    | .spine => solveJoint .spine targetPose.spine dt stiffness damping
        (axes (Real.sin (timeNow * 5) * twistVal * (1/5))
          (Real.cos (timeNow * 3) * twistVal * (3/10)) 0) (joints .spine)
    | .head => solveJoint .head targetPose.head dt stiffness damping
        (axes (nodVal * (1/2)) (Real.sin (timeNow * 8) * nodVal * (1/10))
          (if isEditing then 0 else pitchTilt)) (joints .head)
    | .lArm => solveJoint .lArm targetPose.lArm dt stiffness damping
        (axes 0 0 (armWiggle * (3/10))) (joints .lArm)
    | .rArm => solveJoint .rArm targetPose.rArm dt stiffness damping
        (axes 0 0 (-(armWiggle * (3/10)))) (joints .rArm)
    | .lForeArm => solveJoint .lForeArm lForeTarget dt (stiffness * (4/5))
        damping (axes 0 0 0) (joints .lForeArm)
    | .rForeArm => solveJoint .rForeArm rForeTarget dt (stiffness * (4/5))
        damping (axes 0 0 0) (joints .rForeArm)
    | .lLeg => solveJoint .lLeg targetPose.lLeg dt stiffness damping
        (axes (Real.sin (timeNow * 10) * bassVal * (1/5)) 0 0) (joints .lLeg)
    | .rLeg => solveJoint .rLeg targetPose.rLeg dt stiffness damping
        (axes (-(Real.sin (timeNow * 10) * bassVal * (1/5))) 0 0) (joints .rLeg)
    | .lShin => solveJoint .lShin (axes kneeBend 0 0) dt (stiffness * (1/2))
        (damping * 2) (axes 0 0 0) (joints .lShin)
    | .rShin => solveJoint .rShin (axes kneeBend 0 0) dt (stiffness * (1/2))
        (damping * 2) (axes 0 0 0) (joints .rShin),
   sel.2)

/-- One `useFrame` tick of the `Robot` component: the accumulated time
advances by the full `delta`, the integration timestep is clamped to `0.1`
(`Math.min(delta, 0.1)`), then the solver body runs. -/
noncomputable def robotStep (inp : RobotInput) (delta : ℝ) (s : RobotState) : RobotState :=
  let timeNow := s.time + delta
  let dt := min delta (1/10)
  let r := robotTick inp dt timeNow s.moveIndex s.joints
  ⟨timeNow, r.2, r.1⟩

/-! ### Sequencer (App.tsx: `saveSequence` / `handleSaveSequence`) -/

/-- Observable result of the save action: the sequence catalog
(`customSequences`), the recorded frames buffer, and whether the success
alert fired. -/
structure SaveResult where
  catalog : List DanceSequence
  frames : List DancePose
  savedAlert : Bool

/-- The `saveSequence` handler of `App.tsx` combined with
`handleSaveSequence`: an empty frame buffer is rejected with no state change
and no success signal; otherwise a new sequence whose `id` is
`Date.now().toString()` (passed here as `newId`) is appended to the catalog,
the frame buffer is cleared and the success alert fires. -/
def saveSequence (name newId : String) (frames : List DancePose)
    (catalog : List DanceSequence) : SaveResult :=
  if frames.length = 0 then ⟨catalog, frames, false⟩
  else ⟨catalog ++ [⟨newId, name, frames⟩], [], true⟩

/-! ### Beat-detector lemmas (claims C2 and C10) -/

lemma beatStep_pos {s : BeatState} {b now : ℚ}
    (h : s.threshold < b ∧ 300 < now - s.lastBeatTime) :
    beatStep s b now = (true, ⟨now, 1⟩) := by
  simp [beatStep, h]

lemma beatStep_neg {s : BeatState} {b now : ℚ}
    (h : ¬(s.threshold < b ∧ 300 < now - s.lastBeatTime)) :
    beatStep s b now = (false, ⟨s.lastBeatTime, decayThreshold s.threshold⟩) := by
  simp [beatStep, h]

lemma beatTimes_cons (s : BeatState) (b now : ℚ) (rest : List (ℚ × ℚ)) :
    beatTimes s ((b, now) :: rest) =
      if (beatStep s b now).1 then now :: beatTimes (beatStep s b now).2 rest
      else beatTimes (beatStep s b now).2 rest := rfl

/-- Every beat reported during a run whose timestamps are nondecreasing and
at least the stored `lastBeatTime` occurs strictly more than 300 ms after
the stored `lastBeatTime`. -/
lemma beatTimes_all_late (l : List (ℚ × ℚ)) : ∀ s : BeatState,
    l.Pairwise (fun a b => a.2 ≤ b.2) →
    (∀ p ∈ l, s.lastBeatTime ≤ p.2) →
    ∀ τ ∈ beatTimes s l, s.lastBeatTime + 300 < τ := by
  induction l with
  | nil => intro s _ _ τ hτ; simp [beatTimes] at hτ
  | cons hd rest ih =>
    intro s hpw hge τ hτ
    obtain ⟨b, now⟩ := hd
    rw [List.pairwise_cons] at hpw
    rw [beatTimes_cons] at hτ
    by_cases hc : s.threshold < b ∧ 300 < now - s.lastBeatTime
    · rw [beatStep_pos hc] at hτ
      simp only [if_true] at hτ
      rcases List.mem_cons.1 hτ with h | h
      · subst h; linarith [hc.2]
      · have hge2 : ∀ p ∈ rest, (BeatState.mk now 1).lastBeatTime ≤ p.2 := by
          intro p hp; exact hpw.1 p hp
        have := ih ⟨now, 1⟩ hpw.2 hge2 τ h
        simp only at this
        linarith [hc.2]
    · rw [beatStep_neg hc] at hτ
      simp only [Bool.false_eq_true, if_false] at hτ
      have hge2 : ∀ p ∈ rest,
          (BeatState.mk s.lastBeatTime (decayThreshold s.threshold)).lastBeatTime ≤ p.2 := by
        intro p hp; exact hge p (List.mem_cons_of_mem _ hp)
      exact ih _ hpw.2 hge2 τ hτ

/-- The reported beat timestamps of any run with nondecreasing clock are
pairwise separated by strictly more than 300 ms. -/
lemma beatTimes_pairwise (l : List (ℚ × ℚ)) : ∀ s : BeatState,
    l.Pairwise (fun a b => a.2 ≤ b.2) →
    (beatTimes s l).Pairwise (fun a b => 300 < b - a) := by
  induction l with
  | nil => intro s _; simp [beatTimes]
  | cons hd rest ih =>
    intro s hpw
    obtain ⟨b, now⟩ := hd
    rw [List.pairwise_cons] at hpw
    rw [beatTimes_cons]
    by_cases hc : s.threshold < b ∧ 300 < now - s.lastBeatTime
    · rw [beatStep_pos hc]
      simp only [if_true]
      rw [List.pairwise_cons]
      refine ⟨fun τ hτ => ?_, ih ⟨now, 1⟩ hpw.2⟩
      have hge2 : ∀ p ∈ rest, (BeatState.mk now 1).lastBeatTime ≤ p.2 := by
        intro p hp; exact hpw.1 p hp
      have := beatTimes_all_late rest ⟨now, 1⟩ hpw.2 hge2 τ hτ
      simp only at this
      linarith
    · rw [beatStep_neg hc]
      simp only [Bool.false_eq_true, if_false]
      exact ih _ hpw.2

/-- C2. For any sequence of extractor calls with nondecreasing timestamps,
no two calls that return `isBeat = true` have timestamps within 300 ms of
each other (consecutive reported beat times differ by strictly more than the
minimum interval, pairwise); and a bass crossing inside the refractory
window produces no beat and is dropped: the step returns `isBeat = false`
and the state merely decays the threshold, leaving `lastBeatTime`
unchanged (nothing is queued). -/
theorem beat_refractory_and_drop :
    (∀ (s : BeatState) (l : List (ℚ × ℚ)),
      l.Pairwise (fun a b => a.2 ≤ b.2) →
      (beatTimes s l).Pairwise (fun a b => 300 < b - a)) ∧
    (∀ (s : BeatState) (b now : ℚ), s.threshold < b → now - s.lastBeatTime ≤ 300 →
      beatStep s b now = (false, ⟨s.lastBeatTime, decayThreshold s.threshold⟩)) := by
  constructor
  · intro s l h
    exact beatTimes_pairwise l s h
  · intro s b now _ h2
    exact beatStep_neg (fun hc => absurd hc.2 (not_lt.2 h2))

/-- Witness for C2 at concrete inputs: a two-tick run with nondecreasing
clock, and a crossing 100 ms after a beat being dropped. -/
theorem beat_refractory_and_drop_witness :
    (([((1 : ℚ), (0 : ℚ)), (1, 100)] : List (ℚ × ℚ)).Pairwise (fun a b => a.2 ≤ b.2) ∧
      (beatTimes ⟨0, 3/5⟩ [((1 : ℚ), (0 : ℚ)), (1, 100)]).Pairwise (fun a b => 300 < b - a)) ∧
    ((⟨400, 3/5⟩ : BeatState).threshold < 1 ∧ (500 : ℚ) - (⟨400, 3/5⟩ : BeatState).lastBeatTime ≤ 300 ∧
      beatStep ⟨400, 3/5⟩ 1 500 = (false, ⟨400, decayThreshold (3/5)⟩)) :=
  ⟨⟨by decide, beat_refractory_and_drop.1 _ _ (by decide)⟩,
   ⟨by norm_num, by norm_num,
    beat_refractory_and_drop.2 ⟨400, 3/5⟩ 1 500 (by norm_num) (by norm_num)⟩⟩

lemma beatStep_threshold_mem {s : BeatState} (_h1 : 7/20 ≤ s.threshold)
    (h2 : s.threshold ≤ 1) (b now : ℚ) :
    7/20 ≤ (beatStep s b now).2.threshold ∧ (beatStep s b now).2.threshold ≤ 1 := by
  by_cases hc : s.threshold < b ∧ 300 < now - s.lastBeatTime
  · rw [beatStep_pos hc]
    norm_num
  · rw [beatStep_neg hc]
    simp only [decayThreshold]
    by_cases hd : s.threshold * (98/100) < 35/100
    · rw [if_pos hd]; norm_num
    · rw [if_neg hd]
      constructor
      · linarith [not_lt.1 hd]
      · nlinarith

lemma extractorRun_threshold (nyq : ℚ) (l : List (List ℕ × List ℕ × ℚ)) :
    ∀ st : ExtractorState, 7/20 ≤ st.beat.threshold → st.beat.threshold ≤ 1 →
    7/20 ≤ (extractorRun nyq st l).beat.threshold ∧
      (extractorRun nyq st l).beat.threshold ≤ 1 := by
  induction l with
  | nil => intro st h1 h2; exact ⟨h1, h2⟩
  | cons hd rest ih =>
    intro st h1 h2
    obtain ⟨d, t, now⟩ := hd
    have hstep : (getFeatures d t st now nyq).2.beat = (beatStep st.beat (bassOf d) now).2 := rfl
    have := beatStep_threshold_mem h1 h2 (bassOf d) now
    exact ih _ (hstep ▸ this.1) (hstep ▸ this.2)

/-- C10. Starting from its initial value 0.6, the adaptive beat threshold
lies in [0.35, 1.0] after every extractor call: for every sequence of
extractor inputs, the threshold of the resulting state stays in the range
(each call either spikes it to 1.0 on a beat or decays it by 0.98 floored at
0.35). -/
theorem beat_threshold_invariant (nyq : ℚ) (l : List (List ℕ × List ℕ × ℚ)) :
    7/20 ≤ (extractorRun nyq initExtractorState l).beat.threshold ∧
      (extractorRun nyq initExtractorState l).beat.threshold ≤ 1 :=
  extractorRun_threshold nyq l initExtractorState (by norm_num [initExtractorState])
    (by norm_num [initExtractorState])

/-! ### Projection equations for `getFeatures` -/

lemma getFeatures_bass (d t : List ℕ) (st : ExtractorState) (now nyq : ℚ) :
    (getFeatures d t st now nyq).1.bass = bassOf d := rfl

lemma getFeatures_mid (d t : List ℕ) (st : ExtractorState) (now nyq : ℚ) :
    (getFeatures d t st now nyq).1.mid = midOf d := rfl

lemma getFeatures_treble (d t : List ℕ) (st : ExtractorState) (now nyq : ℚ) :
    (getFeatures d t st now nyq).1.treble = trebleOf d := rfl

lemma getFeatures_energy (d t : List ℕ) (st : ExtractorState) (now nyq : ℚ) :
    (getFeatures d t st now nyq).1.energy = (bassOf d + midOf d + trebleOf d) / 3 := rfl

lemma getFeatures_rms (d t : List ℕ) (st : ExtractorState) (now nyq : ℚ) :
    (getFeatures d t st now nyq).1.rms = Real.sqrt ((rmsSqOf t : ℚ) : ℝ) := rfl

lemma getFeatures_centroid (d t : List ℕ) (st : ExtractorState) (now nyq : ℚ) :
    (getFeatures d t st now nyq).1.spectralCentroid = centroidOf d := rfl

lemma getFeatures_flux (d t : List ℕ) (st : ExtractorState) (now nyq : ℚ) :
    (getFeatures d t st now nyq).1.spectralFlux = fluxOf d st.prevSpectrum := rfl

lemma getFeatures_pitch (d t : List ℕ) (st : ExtractorState) (now nyq : ℚ) :
    (getFeatures d t st now nyq).1.pitch = pitchValOf d nyq := rfl

lemma getFeatures_isBeat (d t : List ℕ) (st : ExtractorState) (now nyq : ℚ) :
    (getFeatures d t st now nyq).1.isBeat = (beatStep st.beat (bassOf d) now).1 := rfl

lemma getFeatures_chroma (d t : List ℕ) (st : ExtractorState) (now nyq : ℚ) :
    (getFeatures d t st now nyq).1.chroma = chromaOf d nyq := rfl

lemma getFeatures_prevSpectrum (d t : List ℕ) (st : ExtractorState) (now nyq : ℚ) :
    (getFeatures d t st now nyq).2.prevSpectrum = d.map (fun x : ℕ => (x : ℚ) / 255) := rfl

lemma getFeatures_beat (d t : List ℕ) (st : ExtractorState) (now nyq : ℚ) :
    (getFeatures d t st now nyq).2.beat = (beatStep st.beat (bassOf d) now).2 := rfl

/-! ### Feature-range lemmas (claim C1) -/

lemma getD_le_of_forall {d : List ℕ} (h : ∀ x ∈ d, x ≤ 255) (i : ℕ) :
    d.getD i 0 ≤ 255 := by
  by_cases hi : i < d.length
  · rw [List.getD_eq_getElem _ _ hi]
    exact h _ (List.getElem_mem hi)
  · rw [List.getD_eq_default _ _ (le_of_not_lt hi)]
    norm_num

lemma bandAvg_nonneg (d : List ℕ) (a b : ℕ) : 0 ≤ bandAvg d a b := by
  unfold bandAvg
  apply div_nonneg
  · exact Finset.sum_nonneg fun i _ => Nat.cast_nonneg _
  · exact Nat.cast_nonneg _

lemma bandAvg_le {d : List ℕ} (hd : ∀ x ∈ d, x ≤ 255) {a b : ℕ} (hab : a < b) :
    bandAvg d a b ≤ 255 := by
  unfold bandAvg
  have hpos : (0 : ℚ) < ((b - a : ℕ) : ℚ) := by
    exact_mod_cast Nat.sub_pos_of_lt hab
  rw [div_le_iff₀ hpos]
  calc ∑ i ∈ Finset.Ico a b, (d.getD i 0 : ℚ)
      ≤ ∑ _i ∈ Finset.Ico a b, (255 : ℚ) :=
        Finset.sum_le_sum fun i _ => by exact_mod_cast getD_le_of_forall hd i
    _ = ((b - a : ℕ) : ℚ) * 255 := by
        rw [Finset.sum_const, Nat.card_Ico, nsmul_eq_mul]
    _ = 255 * ((b - a : ℕ) : ℚ) := by ring

lemma band_mem {d : List ℕ} (hd : ∀ x ∈ d, x ≤ 255) {a b : ℕ} (hab : a < b) :
    0 ≤ bandAvg d a b / 255 ∧ bandAvg d a b / 255 ≤ 1 := by
  constructor
  · apply div_nonneg (bandAvg_nonneg d a b); norm_num
  · rw [div_le_one (by norm_num)]
    exact bandAvg_le hd hab

lemma rmsSqOf_nonneg (t : List ℕ) : 0 ≤ rmsSqOf t := by
  unfold rmsSqOf
  apply div_nonneg
  · exact Finset.sum_nonneg fun i _ => sq_nonneg _
  · exact Nat.cast_nonneg _

lemma rmsSqOf_le_one {t : List ℕ} (ht : ∀ x ∈ t, x ≤ 255) : rmsSqOf t ≤ 1 := by
  unfold rmsSqOf
  rcases Nat.eq_zero_or_pos t.length with h0 | hpos
  · simp [h0]
  · rw [div_le_one (by exact_mod_cast hpos)]
    calc ∑ i ∈ Finset.range t.length, (((t.getD i 0 : ℚ) - 128) / 128) ^ 2
        ≤ ∑ _i ∈ Finset.range t.length, (1 : ℚ) := by
          apply Finset.sum_le_sum
          intro i _
          have h255 : (t.getD i 0 : ℚ) ≤ 255 := by
            exact_mod_cast getD_le_of_forall ht i
          have h0' : (0 : ℚ) ≤ (t.getD i 0 : ℚ) := Nat.cast_nonneg _
          rw [div_pow, div_le_one (by norm_num)]
          nlinarith
      _ = (t.length : ℚ) := by rw [Finset.sum_const, nsmul_eq_mul, mul_one, Finset.card_range]

lemma centroid_mem (d : List ℕ) : 0 ≤ centroidOf d ∧ centroidOf d ≤ 1 := by
  unfold centroidOf
  set den := ∑ i ∈ Finset.range d.length, (d.getD i 0 : ℚ) / 255 with hden
  have hden0 : 0 ≤ den :=
    Finset.sum_nonneg fun i _ => div_nonneg (Nat.cast_nonneg _) (by norm_num)
  by_cases h : den = 0
  · rw [if_pos h]; norm_num
  · rw [if_neg h]
    have hdpos : 0 < den := lt_of_le_of_ne hden0 (Ne.symm h)
    have hnum0 : 0 ≤ ∑ i ∈ Finset.range d.length, (i : ℚ) * ((d.getD i 0 : ℚ) / 255) :=
      Finset.sum_nonneg fun i _ =>
        mul_nonneg (Nat.cast_nonneg _) (div_nonneg (Nat.cast_nonneg _) (by norm_num))
    have hlen : 0 < d.length := by
      by_contra hl
      have : d.length = 0 := Nat.eq_zero_of_not_pos hl
      apply h
      rw [hden, this]
      simp
    have hlenq : (0 : ℚ) < (d.length : ℚ) := by exact_mod_cast hlen
    constructor
    · positivity
    · rw [div_le_one hlenq, div_le_iff₀ hdpos]
      calc ∑ i ∈ Finset.range d.length, (i : ℚ) * ((d.getD i 0 : ℚ) / 255)
          ≤ ∑ i ∈ Finset.range d.length, (d.length : ℚ) * ((d.getD i 0 : ℚ) / 255) := by
            apply Finset.sum_le_sum
            intro i hi
            apply mul_le_mul_of_nonneg_right _
              (div_nonneg (Nat.cast_nonneg _) (by norm_num))
            exact_mod_cast le_of_lt (Finset.mem_range.1 hi)
        _ = (d.length : ℚ) * den := by rw [hden, Finset.mul_sum]

lemma flux_mem (d : List ℕ) (prev : List ℚ) :
    0 ≤ fluxOf d prev ∧ fluxOf d prev ≤ 1 := by
  unfold fluxOf
  constructor
  · apply le_min (by norm_num)
    apply div_nonneg _ (by norm_num)
    apply Finset.sum_nonneg
    intro i _
    split
    next h => exact le_of_lt h
    next => exact le_refl 0
  · exact min_le_left _ _

lemma pitchScanAux_cases (l : List ℕ) : ∀ mv mi i,
    pitchScanAux mv mi i l = (mv, mi) ∨ i ≤ (pitchScanAux mv mi i l).2 := by
  induction l with
  | nil => intro mv mi i; left; rfl
  | cons v rest ih =>
    intro mv mi i
    unfold pitchScanAux
    by_cases hv : mv < v
    · rw [if_pos hv]
      rcases ih v i (i + 1) with h | h
      · right; rw [h]
      · right; omega
    · rw [if_neg hv]
      rcases ih mv mi (i + 1) with h | h
      · left; exact h
      · right; omega

lemma pitch_zero_or_ge {d : List ℕ} (hd : d.length = 1024) {nyq : ℚ} (hnyq : 0 < nyq) :
    pitchValOf d nyq = 0 ∨ nyq / 1024 ≤ pitchValOf d nyq := by
  unfold pitchValOf
  by_cases h : 100 < (pitchScanAux 0 0 1 (d.drop 1)).1
  · right
    rw [if_pos h]
    have hidx : 1 ≤ (pitchScanAux 0 0 1 (d.drop 1)).2 := by
      rcases pitchScanAux_cases (d.drop 1) 0 0 1 with hc | hc
      · rw [hc] at h; norm_num at h
      · exact hc
    have hidxq : (1 : ℚ) ≤ ((pitchScanAux 0 0 1 (d.drop 1)).2 : ℚ) := by exact_mod_cast hidx
    rw [hd]
    have heq : nyq / 1024 = (1 : ℚ) / 1024 * nyq := by ring
    rw [heq]
    have hcast : ((1024 : ℕ) : ℚ) = (1024 : ℚ) := by norm_num
    rw [hcast]
    apply mul_le_mul_of_nonneg_right _ (le_of_lt hnyq)
    apply div_le_div_of_nonneg_right hidxq (by norm_num)
  · left; rw [if_neg h]

lemma chromaAccum_nonneg (l : List ℕ) : ∀ (n : ℕ) (nyq : ℚ) (i : ℕ) (c : Fin 12),
    0 ≤ chromaAccum n nyq i l c := by
  induction l with
  | nil => intro n nyq i c; simp [chromaAccum]
  | cons v rest ih =>
    intro n nyq i c
    unfold chromaAccum
    split
    · apply add_nonneg _ (ih n nyq (i + 1) c)
      split
      · positivity
      · exact le_refl 0
    · exact ih n nyq (i + 1) c

lemma le_foldr_max_of_mem {l : List ℚ} {x : ℚ} (init : ℚ) (h : x ∈ l) :
    x ≤ l.foldr max init := by
  induction l with
  | nil => cases h
  | cons a rest ih =>
    rcases List.mem_cons.1 h with h1 | h1
    · subst h1; exact le_max_left _ _
    · exact le_trans (ih h1) (le_max_right _ _)

lemma init_le_foldr_max (l : List ℚ) (init : ℚ) : init ≤ l.foldr max init := by
  induction l with
  | nil => exact le_refl _
  | cons a rest ih => exact le_trans ih (le_max_right _ _)

lemma chromaMax_pos (raw : Fin 12 → ℚ) : 0 < chromaMax raw :=
  lt_of_lt_of_le (by norm_num) (init_le_foldr_max (List.ofFn raw) (1 / 1000))

lemma chromaRaw_le_chromaMax (raw : Fin 12 → ℚ) (c : Fin 12) :
    raw c ≤ chromaMax raw :=
  le_foldr_max_of_mem _ ((List.mem_ofFn raw (raw c)).2 ⟨c, rfl⟩)

lemma chromaOf_mem (d : List ℕ) (nyq : ℚ) (c : Fin 12) :
    0 ≤ chromaOf d nyq c ∧ chromaOf d nyq c ≤ 1 := by
  unfold chromaOf
  split
  · constructor
    · exact div_nonneg (chromaAccum_nonneg d _ nyq 0 c) (le_of_lt (chromaMax_pos _))
    · rw [div_le_one (chromaMax_pos _)]
      exact chromaRaw_le_chromaMax _ c
  · norm_num

/-- C1. For every call of the feature extractor on valid input buffers
(1024 byte-valued entries each, positive Nyquist frequency), every numeric
field of the returned frame except `pitch` — `bass`, `mid`, `treble`,
`energy`, `rms`, `spectralCentroid`, `spectralFlux` and every chroma entry —
lies in [0, 1], and `pitch` is either 0 or at least the frequency
`nyquist / 1024` of one spectral bin. -/
theorem featureFrame_fields_bounded (d t : List ℕ) (st : ExtractorState) (now nyq : ℚ)
    (hdlen : d.length = 1024) (_htlen : t.length = 1024)
    (hdv : ∀ x ∈ d, x ≤ 255) (htv : ∀ x ∈ t, x ≤ 255) (hnyq : 0 < nyq) :
    (0 ≤ (getFeatures d t st now nyq).1.bass ∧ (getFeatures d t st now nyq).1.bass ≤ 1) ∧
    (0 ≤ (getFeatures d t st now nyq).1.mid ∧ (getFeatures d t st now nyq).1.mid ≤ 1) ∧
    (0 ≤ (getFeatures d t st now nyq).1.treble ∧ (getFeatures d t st now nyq).1.treble ≤ 1) ∧
    (0 ≤ (getFeatures d t st now nyq).1.energy ∧ (getFeatures d t st now nyq).1.energy ≤ 1) ∧
    (0 ≤ (getFeatures d t st now nyq).1.rms ∧ (getFeatures d t st now nyq).1.rms ≤ 1) ∧
    (0 ≤ (getFeatures d t st now nyq).1.spectralCentroid ∧
      (getFeatures d t st now nyq).1.spectralCentroid ≤ 1) ∧
    (0 ≤ (getFeatures d t st now nyq).1.spectralFlux ∧
      (getFeatures d t st now nyq).1.spectralFlux ≤ 1) ∧
    (∀ c, 0 ≤ (getFeatures d t st now nyq).1.chroma c ∧
      (getFeatures d t st now nyq).1.chroma c ≤ 1) ∧
    ((getFeatures d t st now nyq).1.pitch = 0 ∨
      nyq / 1024 ≤ (getFeatures d t st now nyq).1.pitch) := by
  simp only [getFeatures_bass, getFeatures_mid, getFeatures_treble, getFeatures_energy,
    getFeatures_rms, getFeatures_centroid, getFeatures_flux, getFeatures_pitch,
    getFeatures_chroma]
  have hbass := band_mem hdv (show 1 < 12 by norm_num)
  have hmid := band_mem hdv (show 12 < 185 by norm_num)
  have htre := band_mem hdv (show 185 < 1024 by norm_num)
  refine ⟨hbass, hmid, htre, ?_, ?_, centroid_mem d, flux_mem d st.prevSpectrum,
    fun c => chromaOf_mem d nyq c, pitch_zero_or_ge hdlen hnyq⟩
  · unfold bassOf midOf trebleOf
    constructor
    · linarith [hbass.1, hmid.1, htre.1]
    · linarith [hbass.2, hmid.2, htre.2]
  · constructor
    · exact Real.sqrt_nonneg _
    · rw [Real.sqrt_le_one]
      exact_mod_cast rmsSqOf_le_one htv

/-- Witness for C1 at a concrete valid input. -/
theorem featureFrame_fields_bounded_witness :
    ((List.replicate 1024 (0 : ℕ)).length = 1024 ∧
      (List.replicate 1024 (0 : ℕ)).length = 1024 ∧
      (∀ x ∈ List.replicate 1024 (0 : ℕ), x ≤ 255) ∧
      (∀ x ∈ List.replicate 1024 (0 : ℕ), x ≤ 255) ∧ (0 : ℚ) < 22050) ∧
    ((getFeatures (List.replicate 1024 0) (List.replicate 1024 0)
        initExtractorState 0 22050).1.pitch = 0 ∨
      (22050 : ℚ) / 1024 ≤ (getFeatures (List.replicate 1024 0) (List.replicate 1024 0)
        initExtractorState 0 22050).1.pitch) :=
  ⟨⟨by rw [List.length_replicate], by rw [List.length_replicate],
    fun x hx => by rw [List.eq_of_mem_replicate hx]; norm_num,
    fun x hx => by rw [List.eq_of_mem_replicate hx]; norm_num, by norm_num⟩,
   (featureFrame_fields_bounded (List.replicate 1024 0) (List.replicate 1024 0)
      initExtractorState 0 22050 (by rw [List.length_replicate])
      (by rw [List.length_replicate])
      (fun x hx => by rw [List.eq_of_mem_replicate hx]; norm_num)
      (fun x hx => by rw [List.eq_of_mem_replicate hx]; norm_num)
      (by norm_num)).2.2.2.2.2.2.2.2⟩

/-! ### Zero-input behaviour (claim C7) -/

/-- An all-zero magnitude spectrum (1024 byte bins of value 0). -/
def zeroSpec : List ℕ := List.replicate 1024 0

/-- An all-zero time-domain signal. `getByteTimeDomainData` encodes samples
as unsigned bytes centered at 128, so the zero signal is 1024 bytes of value
128 (the extractor recenters them via `(timeArray[i] - 128) / 128`). -/
def zeroTime : List ℕ := List.replicate 1024 128

/-- The frame contents claimed for a silent tick: no beat, no pitch,
all-zero chroma and every normalized field equal to 0. -/
def IsZeroFrame (f : FeatureFrame) : Prop :=
  f.isBeat = false ∧ f.pitch = 0 ∧ (∀ c, f.chroma c = 0) ∧ f.bass = 0 ∧
  f.mid = 0 ∧ f.treble = 0 ∧ f.energy = 0 ∧ f.rms = 0 ∧
  f.spectralCentroid = 0 ∧ f.spectralFlux = 0

lemma getD_zeroSpec (i : ℕ) : zeroSpec.getD i 0 = 0 := by
  unfold zeroSpec
  by_cases hi : i < (List.replicate 1024 (0 : ℕ)).length
  · rw [List.getD_eq_getElem _ _ hi, List.getElem_replicate]
  · rw [List.getD_eq_default _ _ (le_of_not_lt hi)]

lemma bandAvg_zeroSpec (a b : ℕ) : bandAvg zeroSpec a b = 0 := by
  unfold bandAvg
  rw [Finset.sum_eq_zero, zero_div]
  intro i _
  rw [getD_zeroSpec]
  norm_num

lemma rmsSqOf_zeroTime : rmsSqOf zeroTime = 0 := by
  unfold rmsSqOf
  rw [Finset.sum_eq_zero, zero_div]
  intro i hi
  rw [Finset.mem_range] at hi
  rw [List.getD_eq_getElem _ _ hi]
  unfold zeroTime
  rw [List.getElem_replicate]
  norm_num

lemma centroidOf_zeroSpec : centroidOf zeroSpec = 0 := by
  unfold centroidOf
  rw [if_pos]
  rw [Finset.sum_eq_zero]
  intro i _
  rw [getD_zeroSpec]
  norm_num

lemma fluxOf_zeroSpec {prev : List ℚ} (hprev : ∀ x ∈ prev, 0 ≤ x) :
    fluxOf zeroSpec prev = 0 := by
  unfold fluxOf
  have hsum : (∑ i ∈ Finset.range zeroSpec.length,
      (if 0 < (zeroSpec.getD i 0 : ℚ) / 255 - prev.getD i 0
       then (zeroSpec.getD i 0 : ℚ) / 255 - prev.getD i 0 else 0)) = 0 := by
    apply Finset.sum_eq_zero
    intro i _
    have hp : 0 ≤ prev.getD i 0 := by
      by_cases hi : i < prev.length
      · rw [List.getD_eq_getElem _ _ hi]
        exact hprev _ (List.getElem_mem hi)
      · rw [List.getD_eq_default _ _ (le_of_not_lt hi)]
    rw [getD_zeroSpec]
    split
    next hc => exfalso; push_cast at hc; linarith
    next => rfl
  rw [hsum, zero_div]
  norm_num

lemma pitchScanAux_replicate_zero (n : ℕ) : ∀ mv mi i,
    pitchScanAux mv mi i (List.replicate n 0) = (mv, mi) := by
  induction n with
  | zero => intro mv mi i; rfl
  | succ m ih =>
    intro mv mi i
    rw [List.replicate_succ]
    unfold pitchScanAux
    rw [if_neg (by omega)]
    exact ih mv mi (i + 1)

lemma pitchValOf_zeroSpec (nyq : ℚ) : pitchValOf zeroSpec nyq = 0 := by
  unfold pitchValOf zeroSpec
  simp only [List.drop_replicate, pitchScanAux_replicate_zero, List.length_replicate]
  norm_num

lemma chromaOf_zeroSpec (nyq : ℚ) : chromaOf zeroSpec nyq = fun _ => 0 := by
  unfold chromaOf
  rw [pitchValOf_zeroSpec, if_neg (lt_irrefl 0)]

lemma decayThreshold_nonneg (t : ℚ) : 0 ≤ decayThreshold t := by
  unfold decayThreshold
  split
  · norm_num
  · linarith

/-- Behaviour of one extractor call on the all-zero input, from any state
whose stored spectrum is nonnegative and whose threshold is nonnegative
(both hold for every reachable state): the frame is the all-zero frame and
the new state again satisfies both conditions. -/
lemma getFeatures_zero (st : ExtractorState) (now nyq : ℚ)
    (hprev : ∀ x ∈ st.prevSpectrum, 0 ≤ x) (hthr : 0 ≤ st.beat.threshold) :
    IsZeroFrame (getFeatures zeroSpec zeroTime st now nyq).1 ∧
    (∀ x ∈ (getFeatures zeroSpec zeroTime st now nyq).2.prevSpectrum, 0 ≤ x) ∧
    0 ≤ (getFeatures zeroSpec zeroTime st now nyq).2.beat.threshold := by
  have hbass : bassOf zeroSpec = 0 := by
    unfold bassOf; rw [bandAvg_zeroSpec, zero_div]
  have hmid : midOf zeroSpec = 0 := by
    unfold midOf; rw [bandAvg_zeroSpec, zero_div]
  have htre : trebleOf zeroSpec = 0 := by
    unfold trebleOf; rw [bandAvg_zeroSpec, zero_div]
  have hnotfire : ¬(st.beat.threshold < bassOf zeroSpec ∧
      300 < now - st.beat.lastBeatTime) := by
    rw [hbass]
    intro hc
    linarith [hc.1]
  have hstep := beatStep_neg hnotfire
  unfold IsZeroFrame
  simp only [getFeatures_bass, getFeatures_mid, getFeatures_treble, getFeatures_energy,
    getFeatures_rms, getFeatures_centroid, getFeatures_flux, getFeatures_pitch,
    getFeatures_isBeat, getFeatures_chroma, getFeatures_prevSpectrum, getFeatures_beat]
  refine ⟨⟨?_, ?_, ?_, ?_, ?_, ?_, ?_, ?_, ?_, ?_⟩, ?_, ?_⟩
  · rw [hstep]
  · exact pitchValOf_zeroSpec nyq
  · intro c
    rw [chromaOf_zeroSpec]
  · exact hbass
  · exact hmid
  · exact htre
  · rw [hbass, hmid, htre]
    norm_num
  · rw [rmsSqOf_zeroTime]
    push_cast
    exact Real.sqrt_zero
  · exact centroidOf_zeroSpec
  · exact fluxOf_zeroSpec hprev
  · intro x hx
    rw [zeroSpec, List.map_replicate] at hx
    have hx0 : x = ((0 : ℕ) : ℚ) / 255 := List.eq_of_mem_replicate hx
    rw [hx0]
    norm_num
  · rw [hstep]
    exact decayThreshold_nonneg _

/-- C7. Calling the extractor twice in a row with an all-zero magnitude
spectrum and an all-zero time-domain signal yields, on both calls,
`isBeat = false`, `pitch = 0`, an all-zero chroma vector and every
normalized field (`bass`, `mid`, `treble`, `energy`, `rms`,
`spectralCentroid`, `spectralFlux`) equal to 0, from any state whose stored
previous spectrum is nonnegative and whose threshold is nonnegative (true
of every reachable state). -/
theorem zero_input_idempotent (st : ExtractorState) (now1 now2 nyq : ℚ)
    (hprev : ∀ x ∈ st.prevSpectrum, 0 ≤ x) (hthr : 0 ≤ st.beat.threshold) :
    IsZeroFrame (getFeatures zeroSpec zeroTime st now1 nyq).1 ∧
    IsZeroFrame (getFeatures zeroSpec zeroTime
      (getFeatures zeroSpec zeroTime st now1 nyq).2 now2 nyq).1 := by
  have h1 := getFeatures_zero st now1 nyq hprev hthr
  have h2 := getFeatures_zero (getFeatures zeroSpec zeroTime st now1 nyq).2 now2 nyq
    h1.2.1 h1.2.2
  exact ⟨h1.1, h2.1⟩

/-- Witness for C7 from the initial extractor state. -/
theorem zero_input_idempotent_witness :
    ((∀ x ∈ initExtractorState.prevSpectrum, (0 : ℚ) ≤ x) ∧
      0 ≤ initExtractorState.beat.threshold) ∧
    (IsZeroFrame (getFeatures zeroSpec zeroTime initExtractorState 0 22050).1 ∧
     IsZeroFrame (getFeatures zeroSpec zeroTime
       (getFeatures zeroSpec zeroTime initExtractorState 0 22050).2 100 22050).1) :=
  ⟨⟨fun x hx => by rw [List.eq_of_mem_replicate hx], by norm_num [initExtractorState]⟩,
   zero_input_idempotent initExtractorState 0 100 22050
     (fun x hx => by rw [List.eq_of_mem_replicate hx]) (by norm_num [initExtractorState])⟩

/-! ### Chroma scenario at 440 Hz (claim C9) -/

/-- A magnitude spectrum whose energy is entirely concentrated in bin 1 of
1024. -/
def specA : List ℕ := 0 :: 255 :: List.replicate 1022 0

/-- Nyquist frequency chosen so that bin 1 of 1024 sits exactly at 440 Hz
(the bin nearest 440 Hz): `(1 / 1024) * 450560 = 440`. -/
def nyqA : ℚ := 450560

lemma specA_length : specA.length = 1024 := by
  show (0 :: 255 :: List.replicate 1022 0).length = 1024
  rw [List.length_cons, List.length_cons, List.length_replicate]

lemma chromaAccum_cons (n : ℕ) (nyq : ℚ) (i v : ℕ) (rest : List ℕ) (c : Fin 12) :
    chromaAccum n nyq i (v :: rest) c =
      if 1 ≤ i ∧ 50 ≤ v ∧ 0 < (i : ℚ) / (n : ℚ) * nyq then
        (if pitchClass ((i : ℚ) / (n : ℚ) * nyq) = (c : ℤ) then (v : ℚ) / 255 else 0) +
          chromaAccum n nyq (i + 1) rest c
      else chromaAccum n nyq (i + 1) rest c := rfl

lemma foldr_max_le {l : List ℚ} {init b : ℚ} (hi : init ≤ b) (h : ∀ x ∈ l, x ≤ b) :
    l.foldr max init ≤ b := by
  induction l with
  | nil => exact hi
  | cons a rest ih =>
    exact max_le (h a (List.mem_cons_self a rest))
      (ih fun x hx => h x (List.mem_cons_of_mem _ hx))

lemma pitchScan_specA : pitchScanAux 0 0 1 (specA.drop 1) = (255, 1) := by
  have hdrop : specA.drop 1 = 255 :: List.replicate 1022 0 := rfl
  rw [hdrop]
  unfold pitchScanAux
  rw [if_pos (by norm_num)]
  exact pitchScanAux_replicate_zero 1022 255 1 2

lemma pitchValOf_specA : pitchValOf specA nyqA = 440 := by
  unfold pitchValOf
  rw [pitchScan_specA, specA_length]
  rw [if_pos (by norm_num)]
  norm_num [nyqA]

lemma pitchClass_440 : pitchClass 440 = 9 := by
  unfold pitchClass jsRound midiOfFreq
  have h1 : (((440 : ℚ) : ℝ)) / 440 = 1 := by norm_num
  rw [h1, Real.logb_one]
  have h2 : ⌊(69 : ℝ) + 12 * 0 + 1 / 2⌋ = 69 := by
    rw [Int.floor_eq_iff]
    constructor <;> norm_num
  rw [h2]
  decide

lemma chromaAccum_replicate_zero (m : ℕ) : ∀ (n : ℕ) (nyq : ℚ) (i : ℕ),
    chromaAccum n nyq i (List.replicate m 0) = fun _ => 0 := by
  induction m with
  | zero => intro n nyq i; rfl
  | succ k ih =>
    intro n nyq i
    funext c
    rw [List.replicate_succ, chromaAccum_cons]
    rw [if_neg (by rintro ⟨-, h50, -⟩; norm_num at h50)]
    exact congrFun (ih n nyq (i + 1)) c

lemma chromaRaw_specA :
    chromaRaw specA nyqA = fun c : Fin 12 => if (9 : ℤ) = (c : ℤ) then (1 : ℚ) else 0 := by
  funext c
  unfold chromaRaw
  rw [specA_length]
  show chromaAccum 1024 nyqA 0 (0 :: 255 :: List.replicate 1022 0) c = _
  rw [chromaAccum_cons]
  rw [if_neg (by rintro ⟨h1, -, -⟩; norm_num at h1)]
  rw [chromaAccum_cons]
  rw [if_pos (⟨le_refl 1, by norm_num, by norm_num [nyqA]⟩ :
    1 ≤ 1 ∧ 50 ≤ 255 ∧ 0 < ((1 : ℕ) : ℚ) / ((1024 : ℕ) : ℚ) * nyqA)]
  have h440 : ((1 : ℕ) : ℚ) / ((1024 : ℕ) : ℚ) * nyqA = 440 := by
    norm_num [nyqA]
  rw [h440, pitchClass_440, congrFun (chromaAccum_replicate_zero 1022 1024 nyqA 2) c]
  norm_num

lemma chromaMax_specA : chromaMax (chromaRaw specA nyqA) = 1 := by
  rw [chromaRaw_specA]
  unfold chromaMax
  apply le_antisymm
  · apply foldr_max_le (by norm_num)
    intro x hx
    rcases (List.mem_ofFn _ x).1 hx with ⟨i, hi⟩
    rw [← hi]
    dsimp only
    split
    · exact le_refl 1
    · norm_num
  · have h9 : (fun c : Fin 12 => if (9 : ℤ) = (c : ℤ) then (1 : ℚ) else 0) 9 = 1 := by
      dsimp only
      rw [if_pos (by decide)]
    calc (1 : ℚ) = _ := h9.symm
      _ ≤ _ := le_foldr_max_of_mem _ ((List.mem_ofFn _ _).2 ⟨9, rfl⟩)

/-- C9. A magnitude spectrum whose energy is entirely concentrated at the
bin nearest 440 Hz (bin 1 of 1024 at Nyquist 450560, which sits exactly at
440 Hz and maps to semitone A), produces a chroma vector with
`chroma[9] = 1.0` and every other entry strictly less than 1.0. -/
theorem chroma_concentrated_at_A :
    (getFeatures specA zeroTime initExtractorState 0 nyqA).1.chroma 9 = 1 ∧
    ∀ c : Fin 12, c ≠ 9 →
      (getFeatures specA zeroTime initExtractorState 0 nyqA).1.chroma c < 1 := by
  rw [getFeatures_chroma]
  have hchroma : ∀ c : Fin 12,
      chromaOf specA nyqA c = if (9 : ℤ) = (c : ℤ) then (1 : ℚ) else 0 := by
    intro c
    unfold chromaOf
    rw [pitchValOf_specA, if_pos (by norm_num)]
    show chromaRaw specA nyqA c / chromaMax (chromaRaw specA nyqA) = _
    rw [chromaMax_specA, chromaRaw_specA, div_one]
  constructor
  · rw [hchroma 9, if_pos (by decide)]
  · intro c hc
    rw [hchroma c, if_neg]
    · norm_num
    · intro h
      have hval : c.val = 9 := by exact_mod_cast h.symm
      exact hc (Fin.ext (by rw [hval]; rfl))

/-! ### Joint-limit and clamp lemmas (claims C3, C4, C8) -/

lemma limits_le (j : Joint) (a : Axis) : (jointLimits j a).1 ≤ (jointLimits j a).2 := by
  cases j <;> cases a <;> norm_num [jointLimits]

lemma solveAxis_fst_mem {mn mx : ℝ} (h : mn ≤ mx) (target cur vel dt k damp noise : ℝ) :
    mn ≤ (solveAxis mn mx target cur vel dt k damp noise).1 ∧
      (solveAxis mn mx target cur vel dt k damp noise).1 ≤ mx := by
  simp only [solveAxis]
  split_ifs with h1 h2
  · exact ⟨le_refl mn, h⟩
  · exact ⟨h, le_refl mx⟩
  · exact ⟨le_of_not_lt h1, le_of_not_lt h2⟩

lemma solveJoint_rot_mem (j : Joint) (target : Axis → ℝ) (dt k damp : ℝ)
    (noise : Axis → ℝ) (s : JointState) (a : Axis) :
    ((jointLimits j a).1 : ℝ) ≤ (solveJoint j target dt k damp noise s).rot a ∧
      (solveJoint j target dt k damp noise s).rot a ≤ ((jointLimits j a).2 : ℝ) := by
  have h : ((jointLimits j a).1 : ℝ) ≤ ((jointLimits j a).2 : ℝ) := by
    exact_mod_cast limits_le j a
  exact solveAxis_fst_mem h _ _ _ _ _ _ _

lemma robotStep_rot_mem (inp : RobotInput) (delta : ℝ) (s : RobotState)
    (j : Joint) (a : Axis) :
    ((jointLimits j a).1 : ℝ) ≤ ((robotStep inp delta s).joints j).rot a ∧
      ((robotStep inp delta s).joints j).rot a ≤ ((jointLimits j a).2 : ℝ) := by
  cases j <;> exact solveJoint_rot_mem _ _ _ _ _ _ _ _

/-- C3. For every tick, every joint and every axis, after the solver step
completes the rotation component on that axis lies within that joint's
static `[min, max]` limit (the `JOINT_LIMITS` entry; `hips`, absent from the
table, uses the source's `[-10, 10]` fallback). -/
theorem joint_limits_invariant (inp : RobotInput) (delta : ℝ) (s : RobotState)
    (j : Joint) (a : Axis) :
    ((jointLimits j a).1 : ℝ) ≤ ((robotStep inp delta s).joints j).rot a ∧
      ((robotStep inp delta s).joints j).rot a ≤ ((jointLimits j a).2 : ℝ) :=
  robotStep_rot_mem inp delta s j a

lemma solveAxis_eq_low {mn mx target cur vel dt k damp noise : ℝ}
    (h : rawPos target cur vel dt k damp noise < mn) :
    solveAxis mn mx target cur vel dt k damp noise = (mn, 0) := by
  have h2 := h
  unfold rawPos at h2
  simp only [solveAxis]
  rw [if_pos h2]

lemma solveAxis_eq_high {mn mx target cur vel dt k damp noise : ℝ} (hle : mn ≤ mx)
    (h : mx < rawPos target cur vel dt k damp noise) :
    solveAxis mn mx target cur vel dt k damp noise = (mx, 0) := by
  have h2 := h
  unfold rawPos at h2
  simp only [solveAxis]
  rw [if_neg (by linarith), if_pos h2]

lemma solveAxis_eq_mid {mn mx target cur vel dt k damp noise : ℝ}
    (h1 : ¬(rawPos target cur vel dt k damp noise < mn))
    (h2 : ¬(mx < rawPos target cur vel dt k damp noise)) :
    (solveAxis mn mx target cur vel dt k damp noise).1 =
      rawPos target cur vel dt k damp noise := by
  have h1' := h1
  have h2' := h2
  unfold rawPos at h1' h2'
  simp only [solveAxis]
  rw [if_neg h1', if_neg h2']
  rfl

/-- C4. For every joint and axis, if the semi-implicit Euler step would
carry the axis position strictly past the `[min, max]` limit, the post-step
position equals the limit boundary and the velocity on that axis is exactly
0 (inelastic stop). -/
theorem clamp_stops_velocity (j : Joint) (a : Axis) (target : Axis → ℝ)
    (dt k damp : ℝ) (noise : Axis → ℝ) (s : JointState) :
    (rawPos (target a) (s.rot a) (s.vel a) dt k damp (noise a) < ((jointLimits j a).1 : ℝ) →
      (solveJoint j target dt k damp noise s).rot a = ((jointLimits j a).1 : ℝ) ∧
        (solveJoint j target dt k damp noise s).vel a = 0) ∧
    (((jointLimits j a).2 : ℝ) < rawPos (target a) (s.rot a) (s.vel a) dt k damp (noise a) →
      (solveJoint j target dt k damp noise s).rot a = ((jointLimits j a).2 : ℝ) ∧
        (solveJoint j target dt k damp noise s).vel a = 0) := by
  have hle : ((jointLimits j a).1 : ℝ) ≤ ((jointLimits j a).2 : ℝ) := by
    exact_mod_cast limits_le j a
  constructor
  · intro h
    have heq := @solveAxis_eq_low _ ((jointLimits j a).2 : ℝ) _ _ _ _ _ _ _ h
    constructor
    · show (solveAxis _ _ _ _ _ _ _ _ _).1 = _
      rw [heq]
    · show (solveAxis _ _ _ _ _ _ _ _ _).2 = _
      rw [heq]
  · intro h
    have heq := solveAxis_eq_high hle h
    constructor
    · show (solveAxis _ _ _ _ _ _ _ _ _).1 = _
      rw [heq]
    · show (solveAxis _ _ _ _ _ _ _ _ _).2 = _
      rw [heq]

/-- All-zero joint physics state (the solver's initial state). -/
noncomputable def jointStateZero : JointState := ⟨fun _ => 0, fun _ => 0⟩

/-- Witness for C4: a spring target far below/above the spine x limit drives
the raw position past the boundary; the solver lands exactly on the boundary
with zero velocity. -/
theorem clamp_stops_velocity_witness :
    (rawPos (axes (-100) 0 0 .x) (jointStateZero.rot .x) (jointStateZero.vel .x) 1 1 0
        (axes 0 0 0 .x) < ((jointLimits .spine .x).1 : ℝ) ∧
      (solveJoint .spine (axes (-100) 0 0) 1 1 0 (axes 0 0 0) jointStateZero).rot .x =
        ((jointLimits .spine .x).1 : ℝ) ∧
      (solveJoint .spine (axes (-100) 0 0) 1 1 0 (axes 0 0 0) jointStateZero).vel .x = 0) ∧
    (((jointLimits .spine .x).2 : ℝ) < rawPos (axes 100 0 0 .x) (jointStateZero.rot .x)
        (jointStateZero.vel .x) 1 1 0 (axes 0 0 0 .x) ∧
      (solveJoint .spine (axes 100 0 0) 1 1 0 (axes 0 0 0) jointStateZero).rot .x =
        ((jointLimits .spine .x).2 : ℝ) ∧
      (solveJoint .spine (axes 100 0 0) 1 1 0 (axes 0 0 0) jointStateZero).vel .x = 0) := by
  have hlow : rawPos (axes (-100) 0 0 .x) (jointStateZero.rot .x) (jointStateZero.vel .x)
      1 1 0 (axes 0 0 0 .x) < ((jointLimits .spine .x).1 : ℝ) := by
    norm_num [rawPos, axes, jointStateZero, jointLimits]
  have hhigh : ((jointLimits .spine .x).2 : ℝ) < rawPos (axes 100 0 0 .x)
      (jointStateZero.rot .x) (jointStateZero.vel .x) 1 1 0 (axes 0 0 0 .x) := by
    norm_num [rawPos, axes, jointStateZero, jointLimits]
  have h1 := (clamp_stops_velocity .spine .x (axes (-100) 0 0) 1 1 0 (axes 0 0 0)
    jointStateZero).1 hlow
  have h2 := (clamp_stops_velocity .spine .x (axes 100 0 0) 1 1 0 (axes 0 0 0)
    jointStateZero).2 hhigh
  exact ⟨⟨hlow, h1.1, h1.2⟩, ⟨hhigh, h2.1, h2.2⟩⟩

/-! ### Mode precedence (claim C5) -/

/-- C5. Whenever a manual editor pose is supplied, the solver tick uses it
as the target pose for the primary joints (`selectPose` returns the manual
pose and leaves the move cursor untouched), and the tick's result is
completely independent of the active sequence: stepping with any selected
sequence equals stepping with no sequence at all. -/
theorem manual_pose_overrides_sequence :
    (∀ (p : DancePose) (seq : Option DanceSequence) (isBeat : Bool) (energy : ℝ)
      (mi : ℕ) (r1 r2 : ℝ), selectPose (some p) seq isBeat energy mi r1 r2 = (p, mi)) ∧
    (∀ (f : FeatureFrame) (map : MotionMapping) (p : DancePose) (sq : DanceSequence)
      (ud r1 r2 delta : ℝ) (s : RobotState),
      robotStep ⟨f, map, some p, some sq, ud, r1, r2⟩ delta s =
        robotStep ⟨f, map, some p, none, ud, r1, r2⟩ delta s) := by
  constructor
  · intro p seq isBeat energy mi r1 r2
    rfl
  · intro f map p sq ud r1 r2 delta s
    rfl

/-! ### Large-delta behaviour (claim C8) -/

/-- A silent feature frame fed to the robot. -/
noncomputable def featuresZero : FeatureFrame :=
  ⟨0, 0, 0, 0, 0, 0, 0, 0, false, fun _ => 0⟩

/-- Robot input with silent features, the default mapping, no editor pose,
no sequence, default damping 6 and fixed random draws. -/
noncomputable def robotInput0 : RobotInput :=
  ⟨featuresZero, DEFAULT_MAPPING, none, none, 6, 0, 0⟩

/-- Robot state at startup: time 0, cursor 0, all joints at rest. -/
noncomputable def robotState0 : RobotState := ⟨0, 0, fun _ => jointStateZero⟩

lemma robotStep_hips_x (delta : ℝ) (hdelta : 1 / 10 ≤ delta) :
    ((robotStep robotInput0 delta robotState0).joints .hips).rot .x =
      Real.sin (delta * 10) / 50 := by
  have hdt : min delta (1 / 10) = 1 / 10 := min_eq_right hdelta
  simp only [robotStep, robotTick, robotInput0, robotState0, featuresZero, DEFAULT_MAPPING,
    Option.isSome_none, Bool.false_eq_true, if_false, getFeature, selectPose, solveJoint,
    jointStateZero, axes, jointLimits, hdt]
  rw [solveAxis_eq_mid (by
      unfold rawPos
      push_cast
      nlinarith [Real.neg_one_le_sin ((0 + delta) * 10), Real.sin_le_one ((0 + delta) * 10)])
    (by
      unfold rawPos
      push_cast
      nlinarith [Real.neg_one_le_sin ((0 + delta) * 10), Real.sin_le_one ((0 + delta) * 10)])]
  unfold rawPos
  push_cast
  ring_nf

lemma sin_fifty_neg : Real.sin 50 < 0 := by
  have h : Real.sin 50 = Real.sin (50 - 16 * Real.pi) := by
    have h8 := Real.sin_add_int_mul_two_pi (50 - 16 * Real.pi) 8
    rw [show (50 : ℝ) - 16 * Real.pi + (8 : ℤ) * (2 * Real.pi) = 50 by push_cast; ring] at h8
    exact h8
  rw [h]
  apply Real.sin_neg_of_neg_of_neg_pi_lt
  · nlinarith [Real.pi_gt_d2]
  · nlinarith [Real.pi_lt_d2]

lemma sin_one_pos : 0 < Real.sin 1 :=
  Real.sin_pos_of_pos_of_lt_pi (by norm_num) (by nlinarith [Real.pi_gt_three])

/-- Counterexample to C8 as stated: a tick with `delta = 5.0` does NOT
behave identically to a tick with `delta = 0.1`. The accumulated time
advances by the full, unclamped `delta` and feeds the time-dependent
perturbations, so from the initial state with silent features the hips
offset after a `delta = 5` tick is `sin 50 / 50 < 0` while after a
`delta = 0.1` tick it is `sin 1 / 50 > 0`. -/
theorem large_dt_not_identical :
    ((robotStep robotInput0 5 robotState0).joints .hips).rot .x ≠
      ((robotStep robotInput0 (1 / 10) robotState0).joints .hips).rot .x := by
  have h5 : ((robotStep robotInput0 5 robotState0).joints .hips).rot .x =
      Real.sin 50 / 50 := by
    rw [robotStep_hips_x 5 (by norm_num)]
    norm_num
  have h01 : ((robotStep robotInput0 (1 / 10) robotState0).joints .hips).rot .x =
      Real.sin 1 / 50 := by
    rw [robotStep_hips_x (1 / 10) (by norm_num)]
    norm_num
  rw [h5, h01]
  intro h
  nlinarith [sin_fifty_neg, sin_one_pos]

/-- C8 (amended). A tick with `delta = 5.0` clamps the integration timestep
to `0.1` before use — it runs the solver body with exactly the timestep of a
`delta = 0.1` tick (only the accumulated time differs, advancing by the full
delta) — and the resulting joint state is within the joint limits on every
axis, hence neither divergent nor NaN. -/
theorem large_dt_clamped (inp : RobotInput) (s : RobotState) :
    robotStep inp 5 s = ⟨s.time + 5,
      (robotTick inp (1 / 10) (s.time + 5) s.moveIndex s.joints).2,
      (robotTick inp (1 / 10) (s.time + 5) s.moveIndex s.joints).1⟩ ∧
    ∀ (j : Joint) (a : Axis),
      ((jointLimits j a).1 : ℝ) ≤ ((robotStep inp 5 s).joints j).rot a ∧
        ((robotStep inp 5 s).joints j).rot a ≤ ((jointLimits j a).2 : ℝ) := by
  constructor
  · simp only [robotStep]
    rw [show min (5 : ℝ) (1 / 10) = 1 / 10 from min_eq_right (by norm_num)]
  · intro j a
    exact robotStep_rot_mem inp 5 s j a

/-! ### Sequence saving (claim C6) -/

/-- Counterexample to C6 as stated, at concrete inputs; two conjuncts of
the claim fail. First, failure reporting: `SaveResult` records every
caller-visible effect of the save handler (the catalog update passed to
`onSaveSequence`, the recorded-frames buffer, and the success alert — the
handler itself returns nothing), and the empty-list save yields exactly
the no-op result `⟨catalog, frames, false⟩`: the catalog is unchanged, but
no signal of any kind reaches the caller, so failure is not reported.
Second, id uniqueness: the generated id is `Date.now().toString()`, so a
save landing in the same millisecond as an already-saved sequence reuses
its id — saving `"Test"` with timestamp id `"1"` into a catalog that
already holds a sequence with id `"1"` appends the entry, but the resulting
ids are `["1", "1"]`, so the new id is not unique among the saved
sequences. -/
theorem saveSequence_claim_refuted :
    (saveSequence "Test" "1" [] [⟨"1", "Old", [DEFAULT_POSE]⟩] =
      ⟨[⟨"1", "Old", [DEFAULT_POSE]⟩], [], false⟩) ∧
    ((saveSequence "Test" "1" [DEFAULT_POSE]
        [⟨"1", "Old", [DEFAULT_POSE]⟩]).catalog.map DanceSequence.id = ["1", "1"]) ∧
    ¬ ((saveSequence "Test" "1" [DEFAULT_POSE]
        [⟨"1", "Old", [DEFAULT_POSE]⟩]).catalog.map DanceSequence.id).Nodup := by
  refine ⟨rfl, rfl, ?_⟩
  intro h
  rw [show (saveSequence "Test" "1" [DEFAULT_POSE]
      [⟨"1", "Old", [DEFAULT_POSE]⟩]).catalog.map DanceSequence.id = ["1", "1"] from rfl] at h
  simp at h

/-- C6 (amended). Saving with an empty pose list leaves the catalog
unchanged, keeps the recorded frames and fires no success signal (the
failure is a silent no-op); saving a non-empty pose list appends exactly one
new entry whose pose list is the supplied list and whose id is the supplied
millisecond timestamp string — that id is unique among all saved sequences
provided no already-saved sequence carries the same timestamp id (i.e.
saves occur in distinct milliseconds). -/
theorem saveSequence_spec (name newId : String) (frames : List DancePose)
    (catalog : List DanceSequence) :
    (saveSequence name newId [] catalog = ⟨catalog, [], false⟩) ∧
    (frames ≠ [] →
      (saveSequence name newId frames catalog).catalog =
        catalog ++ [⟨newId, name, frames⟩] ∧
      (saveSequence name newId frames catalog).savedAlert = true ∧
      (saveSequence name newId frames catalog).catalog.length = catalog.length + 1 ∧
      (newId ∉ catalog.map DanceSequence.id →
        ((saveSequence name newId frames catalog).catalog.countP
          (fun sq => sq.id == newId)) = 1)) := by
  constructor
  · rfl
  · intro hne
    have hlen : ¬(frames.length = 0) := by
      intro h0
      exact hne (List.length_eq_zero.1 h0)
    have heq : saveSequence name newId frames catalog =
        ⟨catalog ++ [⟨newId, name, frames⟩], [], true⟩ := by
      unfold saveSequence
      rw [if_neg hlen]
    refine ⟨by rw [heq], by rw [heq], by rw [heq]; simp, ?_⟩
    intro hnotmem
    rw [heq]
    show List.countP (fun sq => sq.id == newId)
      (catalog ++ [(⟨newId, name, frames⟩ : DanceSequence)]) = 1
    rw [List.countP_append]
    have h0 : catalog.countP (fun sq => sq.id == newId) = 0 := by
      rw [List.countP_eq_zero]
      intro sq hsq
      intro hbeq
      apply hnotmem
      have : sq.id = newId := by
        have := of_decide_eq_true hbeq
        exact_mod_cast this
      exact this ▸ List.mem_map_of_mem DanceSequence.id hsq
    rw [h0]
    simp [List.countP_cons]

/-- Witness for C6 (amended) at a concrete non-empty save into an empty
catalog. -/
theorem saveSequence_spec_witness :
    (([DEFAULT_POSE] : List DancePose) ≠ [] ∧
      "1" ∉ ([] : List DanceSequence).map DanceSequence.id) ∧
    ((saveSequence "Test" "1" [DEFAULT_POSE] []).catalog =
        [] ++ [⟨"1", "Test", [DEFAULT_POSE]⟩] ∧
      (saveSequence "Test" "1" [DEFAULT_POSE] []).savedAlert = true ∧
      (saveSequence "Test" "1" [DEFAULT_POSE] []).catalog.length =
        ([] : List DanceSequence).length + 1 ∧
      ((saveSequence "Test" "1" [DEFAULT_POSE] []).catalog.countP
        (fun sq => sq.id == "1")) = 1) :=
  ⟨⟨by simp, by simp⟩, by
    have h := (saveSequence_spec "Test" "1" [DEFAULT_POSE] []).2 (by simp)
    exact ⟨h.1, h.2.1, h.2.2.1, h.2.2.2 (by simp)⟩⟩

end GrooveBot
